import Mathlib

/-!
Verification development for `src/platereadertools.py` (SciATools).

The core under study is the function `Organize`, a line-oriented parser for
Gen5 plate-reader text exports.  We give a shallow embedding of `Organize`:

* an input line is a `List Char` (including its trailing terminator, as in
  Python's file iteration);
* Python's exact decimal arithmetic on parsed numbers is modelled by the
  unnormalised fraction type `Frac` (integer numerator and denominator), with
  an interpretation `Frac.toRat` into `ℚ`;
* numpy arrays become nested lists of `Cell` (`missing` models `NaN`);
* every operation that can raise in Python (indexing, float parsing,
  out-of-range numpy writes, use of an unbound variable) returns an `Option`,
  and a raised exception aborts the whole parse (`none`).
-/

/-- Exact rational value `num / den`, modelling Python's numeric results of
`float(...)` and the arithmetic performed on them, without normalisation. -/
structure Frac where
  num : Int
  den : Int
deriving DecidableEq, Repr

/-- Addition of exact fractions (cross multiplication, no normalisation). -/
def Frac.add (a b : Frac) : Frac :=
  ⟨a.num * b.den + b.num * a.den, a.den * b.den⟩

/-- Division of exact fractions (cross multiplication, no normalisation). -/
def Frac.div (a b : Frac) : Frac :=
  ⟨a.num * b.den, a.den * b.num⟩

/-- Interpretation of a `Frac` as a rational number. -/
def Frac.toRat (a : Frac) : ℚ :=
  (a.num : ℚ) / (a.den : ℚ)

/-- The constant 60, used by the timestamp conversion. -/
def frac60 : Frac := ⟨60, 1⟩

/-- Python `int(...)` truncation of an exact fraction toward zero. -/
def Frac.pyTrunc (a : Frac) : Int :=
  Int.tdiv a.num a.den

/-- Python whitespace, as stripped by `str.strip()`. -/
def pyWs (c : Char) : Bool :=
  c == ' ' || c == '\t' || c == '\n' || c == '\r' || c == '\x0b' || c == '\x0c'

/-- Python `line.strip()`: drop leading and trailing whitespace. -/
def pyStrip (s : List Char) : List Char :=
  ((s.dropWhile pyWs).reverse.dropWhile pyWs).reverse

/-- Python `s.split(sep)` for a one-character separator: split on every
occurrence, keeping empty pieces; the result is never empty. -/
def splitOnChar (sep : Char) : List Char → List (List Char)
  | [] => [[]]
  | c :: rest =>
    match splitOnChar sep rest with
    | [] => if c == sep then [[], []] else [[c]]
    | g :: gs => if c == sep then [] :: g :: gs else (c :: g) :: gs

/-- `beginsWith p l` holds when `p` is a leading substring of `l`
(Python `l[0:len(p)] == p`). -/
def beginsWith : List Char → List Char → Bool
  | [], _ => true
  | _ :: _, [] => false
  | a :: p, b :: l => a == b && beginsWith p l

/-- Python `needle in hay`: substring containment. -/
def hasSubstr (needle : List Char) : List Char → Bool
  | [] => needle.isEmpty
  | c :: rest => beginsWith needle (c :: rest) || hasSubstr needle rest

/-- Numeric value of a digit character. -/
def digitVal (c : Char) : Nat := c.toNat - 48

/-- Value of a digit string, most significant digit first. -/
def digitsVal : List Char → Nat → Nat
  | [], acc => acc
  | c :: cs, acc => digitsVal cs (acc * 10 + digitVal c)

/-- Unsigned decimal literal accepted by Python `float(...)`:
`digits`, `digits.digits`, `digits.` or `.digits`. -/
def parseUnsigned (s : List Char) : Option Frac :=
  match s.dropWhile Char.isDigit with
  | [] =>
    if (s.takeWhile Char.isDigit).isEmpty then none
    else some ⟨(digitsVal (s.takeWhile Char.isDigit) 0 : Int), 1⟩
  | c :: fp =>
    if c = '.' then
      if fp.all Char.isDigit && !((s.takeWhile Char.isDigit).isEmpty && fp.isEmpty) then
        some ⟨(digitsVal (s.takeWhile Char.isDigit) 0 : Int) * (10 : Int) ^ fp.length +
                (digitsVal fp 0 : Int),
              (10 : Int) ^ fp.length⟩
      else none
    else none

/-- Python `float(token)` on the decimal tokens of a plate-reader export
(optional sign, digits, optional fractional part); `none` models a raised
`ValueError`. -/
def parseFloat (s : List Char) : Option Frac :=
  match s with
  | [] => parseUnsigned []
  | c :: rest =>
    if c = '-' then (parseUnsigned rest).map fun q => ⟨-q.num, q.den⟩
    else if c = '+' then parseUnsigned rest
    else parseUnsigned (c :: rest)

/-- The timestamp conversion of `Organize` (source lines 51-57): split the
first token on `':'`, then `s = float(t[2])`, `m = float(t[1]) + s/60`,
`h = float(t[0]) + m/60`.  `none` models `IndexError`/`ValueError`. -/
def convertTime (tok : List Char) : Option Frac :=
  let ts := splitOnChar ':' tok
  (ts[2]?.bind parseFloat).bind fun s =>
    (ts[1]?.bind parseFloat).bind fun mraw =>
      let m := Frac.add mraw (Frac.div s frac60)
      (ts[0]?.bind parseFloat).bind fun hraw =>
        some (Frac.add hraw (Frac.div m frac60))

/-- The characters of the literal `"Read"`. -/
def readChars : List Char := ['R', 'e', 'a', 'd']

/-- The characters of the literal `"GFP"`. -/
def gfpChars : List Char := ['G', 'F', 'P']

/-- The characters of the literal `"RFP"`. -/
def rfpChars : List Char := ['R', 'F', 'P']

/-- The characters of the literal `"600"`. -/
def odChars : List Char := ['6', '0', '0']

/-- The characters of the literal `"Ratio"`. -/
def ratioChars : List Char := ['R', 'a', 't', 'i', 'o']

/-- The characters of the literal `"OVRFLW"`. -/
def ovrflwChars : List Char := ['O', 'V', 'R', 'F', 'L', 'W']

/-- The characters of the literal `"Time"`. -/
def timeChars : List Char := ['T', 'i', 'm', 'e']

/-- A line consisting solely of the terminator. -/
def newlineOnly : List Char := ['\n']

/-- The header test of `Organize` (source line 35):
`line[0:4] == 'Read' or line[0:3] == 'GFP' or line[0:3] == 'RFP' or
 line[0:3] == '600' or line[0:5] == 'Ratio' or len(line) == 4 or len(line) == 8`. -/
def isHeader (line : List Char) : Bool :=
  line.take 4 == readChars || line.take 3 == gfpChars || line.take 3 == rfpChars ||
    line.take 3 == odChars || line.take 5 == ratioChars ||
    line.length == 4 || line.length == 8

/-- The header rule as the specification words it: the leading substring
equals one of the fixed literal prefixes, or the total length is exactly
4 or exactly 8 characters. -/
def isHeaderSpec (line : List Char) : Bool :=
  beginsWith readChars line || beginsWith gfpChars line || beginsWith rfpChars line ||
    beginsWith odChars line || beginsWith ratioChars line ||
    line.length == 4 || line.length == 8

/-- A stored value: `missing` models numpy `NaN`, `val` a stored number. -/
inductive Cell where
  | missing : Cell
  | val : Frac → Cell
deriving DecidableEq, Repr

/-- A channel's 3D measurement grid (row × column × timepoint). -/
abbrev Grid := List (List (List Cell))

/-- A channel's 1D time vector. -/
abbrev TimeVec := List Cell

/-- A Python `dict` with string keys: an association list with unique keys,
updated in place (insertion order preserved). -/
abbrev Dict (α : Type) := List (List Char × α)

/-- `d[k] = v`: replace the value at an existing key, or append a new entry. -/
def dictSet {α : Type} : Dict α → List Char → α → Dict α
  | [], k, v => [(k, v)]
  | (k', v') :: d, k, v =>
    if k' = k then (k, v) :: d else (k', v') :: dictSet d k v

/-- `d[k]` as an `Option` (`none` models `KeyError`). -/
def dictGet {α : Type} : Dict α → List Char → Option α
  | [], _ => none
  | (k', v') :: d, k => if k' = k then some v' else dictGet d k

/-- Resolution of a (possibly negative) numpy index against a length;
`none` models `IndexError`. -/
def npIndex (len : Nat) (i : Int) : Option Nat :=
  if 0 ≤ i then
    if i < (len : Int) then some i.toNat else none
  else
    if -i ≤ (len : Int) then some (len - (-i).toNat) else none

/-- numpy write `v[i] = x` on a 1D array. -/
def setVec (v : TimeVec) (i : Int) (x : Cell) : Option TimeVec :=
  (npIndex v.length i).bind fun n => some (v.set n x)

/-- numpy write `g[r, c, t] = x` on a 3D array (`r`, `c` are loop indices,
`t` the running time index). -/
def set3 (g : Grid) (r c : Nat) (t : Int) (x : Cell) : Option Grid :=
  g[r]?.bind fun row =>
    row[c]?.bind fun col =>
      (npIndex col.length t).bind fun n =>
        some (g.set r (row.set c (col.set n x)))

/-- numpy read `g[r, c, t]` on a 3D array (all indices non-negative). -/
def get3 (g : Grid) (r c tn : Nat) : Option Cell :=
  g[r]?.bind fun row => row[c]?.bind fun col => col[tn]?

/-- The grid allocated at a header: `np.zeros((R, C, T1))` then `[:] = nan`. -/
def mkGrid (nRows nCols nT1 : Nat) : Grid :=
  List.replicate nRows (List.replicate nCols (List.replicate nT1 Cell.missing))

/-- The body of the inner cell loop of `Organize` (source lines 64-69):
`if len(element) == 1: g[r,c,t] = nan`; then
`if element[C*r+1+1+c] == 'OVRFLW': g[r,c,t] = nan else: g[r,c,t] =
float(element[C*r+1+1+c])`.  `none` models `IndexError`/`ValueError`. -/
def writeCell (element : List (List Char)) (nCols : Nat) (t : Int)
    (g : Grid) (r c : Nat) : Option Grid :=
  (if element.length = 1 then set3 g r c t Cell.missing else some g).bind fun g1 =>
    element[nCols * r + 1 + 1 + c]?.bind fun tok =>
      if tok = ovrflwChars then set3 g1 r c t Cell.missing
      else (parseFloat tok).bind fun q => set3 g1 r c t (Cell.val q)

/-- `for column_i in cs:` over the cell-loop body, at row `r`. -/
def writeCols (element : List (List Char)) (nCols : Nat) (t : Int) (r : Nat) :
    Grid → List Nat → Option Grid
  | g, [] => some g
  | g, c :: cs =>
    match writeCell element nCols t g r c with
    | none => none
    | some g1 => writeCols element nCols t r g1 cs

/-- `for row_i in rs:` over the column loop. -/
def writeRows (element : List (List Char)) (nCols : Nat) (t : Int) :
    Grid → List Nat → Option Grid
  | g, [] => some g
  | g, r :: rs =>
    match writeCols element nCols t r g (List.range nCols) with
    | none => none
    | some g1 => writeRows element nCols t g1 rs

/-- The full nested cell loop of `Organize` (source lines 60-69):
`for row_i in range(n_rows): for column_i in range(n_columns): ...`. -/
def writeAll (element : List (List Char)) (nCols nRows : Nat) (t : Int)
    (g : Grid) : Option Grid :=
  writeRows element nCols t g (List.range nRows)

/-- The caller-supplied and precomputed dimensions of one parse. -/
structure Config where
  nRows : Nat
  nCols : Nat
  nTimePoints : Nat
deriving DecidableEq, Repr

/-- The mutable state of the parsing loop: the two dictionaries, the variable
`read` (unbound before the first header, modelled by `none`) and the running
time index `time_i` (meaningful only while `current` is set). -/
structure PRState where
  dataD : Dict Grid
  timeD : Dict TimeVec
  current : Option (List Char)
  timeI : Int
deriving DecidableEq, Repr

/-- The data-row branch of `Organize` (source lines 44-69): strip and
tab-split the line, increment `time_i`, convert the timestamp, write it into
the channel's time vector, then run the nested cell loop.  `none` models any
raised exception (including the unbound `read`/`time_i` when no header has
been seen). -/
def dataStep (cfg : Config) (st : PRState) (line : List Char) : Option PRState :=
  st.current.bind fun rd =>
    ((splitOnChar '\t' (pyStrip line))[0]?).bind fun e0 =>
      (convertTime e0).bind fun h =>
        (dictGet st.timeD rd).bind fun tv =>
          (setVec tv (st.timeI + 1) (Cell.val h)).bind fun tv' =>
            (dictGet st.dataD rd).bind fun g =>
              (writeAll (splitOnChar '\t' (pyStrip line)) cfg.nCols cfg.nRows
                  (st.timeI + 1) g).bind fun g' =>
                some ⟨dictSet st.dataD rd g', dictSet st.timeD rd tv', some rd, st.timeI + 1⟩

/-- The state produced by the header branch of `Organize` (source lines
35-42): `read = line[:-1]`, allocate all-`NaN` grid and time vector for that
key, `time_i = -1`. -/
def headerState (cfg : Config) (st : PRState) (line : List Char) : PRState :=
  ⟨dictSet st.dataD line.dropLast (mkGrid cfg.nRows cfg.nCols (cfg.nTimePoints + 1)),
   dictSet st.timeD line.dropLast (List.replicate (cfg.nTimePoints + 1) Cell.missing),
   some line.dropLast, -1⟩

/-- One iteration of the `for i, line in enumerate(data_read)` loop of
`Organize` (source lines 32-69): header test first, then the
`line != '\n' and 'Time' not in line` guard for a data row, else skip. -/
def stepLine (cfg : Config) (st : PRState) (line : List Char) : Option PRState :=
  if isHeader line = true then some (headerState cfg st line)
  else if line ≠ newlineOnly ∧ hasSubstr timeChars line = false then dataStep cfg st line
  else some st

/-- The whole loop: one line after another; a raised exception aborts. -/
def runLines (cfg : Config) : PRState → List (List Char) → Option PRState
  | st, [] => some st
  | st, line :: rest =>
    match stepLine cfg st line with
    | none => none
    | some st' => runLines cfg st' rest

/-- The state at the start of the loop: empty dictionaries, `read` and
`time_i` unbound. -/
def initState : PRState := ⟨[], [], none, -1⟩

/-- `n_time_points = int(total_run_time/sampling_rate)` (source line 27). -/
def nTimePoints (totalRunTime samplingRate : Frac) : Nat :=
  (Frac.pyTrunc (Frac.div totalRunTime samplingRate)).toNat

/-- The function `Organize` (source lines 8-73) on an already-opened file,
given as its list of lines (each including its terminator, as Python's file
iteration yields them): returns the pair `(data_dict, time_dict)`, or `none`
when the Python original raises. -/
def Organize (nRows nCols : Nat) (totalRunTime samplingRate : Frac)
    (lines : List (List Char)) : Option (Dict Grid × Dict TimeVec) :=
  match runLines ⟨nRows, nCols, nTimePoints totalRunTime samplingRate⟩ initState lines with
  | none => none
  | some st => some (st.dataD, st.timeD)

/-- Boolean shape check: `g` has shape `(R, C, T1)`. -/
def gridShapeB (nRows nCols nT1 : Nat) (g : Grid) : Bool :=
  (g.length == nRows) &&
    g.all fun row => (row.length == nCols) && row.all fun col => col.length == nT1

/-- Every grid in `data_dict` has the configured shape and every vector in
`time_dict` has the configured length. -/
def ShapeInv (cfg : Config) (st : PRState) : Prop :=
  (∀ p ∈ st.dataD, gridShapeB cfg.nRows cfg.nCols (cfg.nTimePoints + 1) p.2 = true) ∧
  (∀ p ∈ st.timeD, p.2.length = cfg.nTimePoints + 1)

instance : DecidableEq (Dict Grid × Dict TimeVec) := instDecidableEqProd

/-! ### Basic list lemmas -/

lemma mem_of_getElem?_some {α : Type} {l : List α} {n : Nat} {a : α}
    (h : l[n]? = some a) : a ∈ l := by
  obtain ⟨hn, rfl⟩ := List.getElem?_eq_some.mp h
  exact List.getElem_mem hn

lemma lt_of_getElem?_some {α : Type} {l : List α} {n : Nat} {a : α}
    (h : l[n]? = some a) : n < l.length :=
  (List.getElem?_eq_some.mp h).1

lemma getElem?_replicate_of_lt {α : Type} {n i : Nat} {a : α} (h : i < n) :
    (List.replicate n a)[i]? = some a := by
  rw [List.getElem?_eq_some]
  refine ⟨by simpa using h, ?_⟩
  simp

lemma getElem?_set_same {α : Type} {l : List α} {i : Nat} {a : α}
    (h : i < l.length) : (l.set i a)[i]? = some a := by
  simp [List.getElem?_set_self, h]

lemma getElem?_set_other {α : Type} (l : List α) (i j : Nat) (a : α)
    (h : i ≠ j) : (l.set i a)[j]? = l[j]? := by
  simp [List.getElem?_set_ne, h]

/-- `l[0:n] == p` with `n = len(p)` is exactly the leading-substring test. -/
lemma take_eq_iff_beginsWith : ∀ (p l : List Char),
    (l.take p.length = p ↔ beginsWith p l = true)
  | [], l => by simp [beginsWith]
  | a :: p, [] => by simp [beginsWith]
  | a :: p, b :: l => by
    simp only [List.length_cons, List.take_succ_cons, beginsWith, Bool.and_eq_true,
      beq_iff_eq, List.cons.injEq]
    constructor
    · rintro ⟨rfl, h⟩
      exact ⟨rfl, (take_eq_iff_beginsWith p l).mp h⟩
    · rintro ⟨rfl, h⟩
      exact ⟨rfl, (take_eq_iff_beginsWith p l).mpr h⟩

/-! ### Dictionary lemmas -/

lemma dictGet_dictSet_self {α : Type} : ∀ (d : Dict α) (k : List Char) (v : α),
    dictGet (dictSet d k v) k = some v
  | [], k, v => by simp [dictSet, dictGet]
  | (k', v') :: d, k, v => by
    by_cases h : k' = k
    · simp [dictSet, dictGet, h]
    · simp only [dictSet, dictGet, if_neg h]
      exact dictGet_dictSet_self d k v

lemma mem_dictSet {α : Type} : ∀ {d : Dict α} {k : List Char} {v : α} {p : List Char × α},
    p ∈ dictSet d k v → p ∈ d ∨ p = (k, v)
  | [], k, v, p => by simp [dictSet]
  | (k', v') :: d, k, v, p => by
    by_cases h : k' = k
    · simp only [dictSet, if_pos h, List.mem_cons]
      rintro (rfl | hp)
      · exact Or.inr rfl
      · exact Or.inl (Or.inr hp)
    · simp only [dictSet, if_neg h, List.mem_cons]
      rintro (rfl | hp)
      · exact Or.inl (Or.inl rfl)
      · rcases mem_dictSet hp with h1 | h2
        · exact Or.inl (Or.inr h1)
        · exact Or.inr h2

lemma dictGet_mem {α : Type} : ∀ {d : Dict α} {k : List Char} {v : α},
    dictGet d k = some v → (k, v) ∈ d
  | [], k, v => by simp [dictGet]
  | (k', v') :: d, k, v => by
    by_cases h : k' = k
    · simp only [dictGet, if_pos h, Option.some.injEq]
      rintro rfl
      subst h
      exact List.mem_cons_self _ _
    · simp only [dictGet, if_neg h]
      intro hp
      exact List.mem_cons_of_mem _ (dictGet_mem hp)

/-! ### numpy index and write lemmas -/

lemma npIndex_of_nonneg {len : Nat} {i : Int} {n : Nat} (hi : 0 ≤ i)
    (h : npIndex len i = some n) : n = i.toNat ∧ n < len := by
  unfold npIndex at h
  rw [if_pos hi] at h
  by_cases h2 : i < (len : Int)
  · rw [if_pos h2] at h
    cases h
    constructor
    · rfl
    · omega
  · rw [if_neg h2] at h
    cases h

lemma npIndex_none_of_ge {len : Nat} {i : Int} (hi : 0 ≤ i)
    (h : (len : Int) ≤ i) : npIndex len i = none := by
  unfold npIndex
  rw [if_pos hi, if_neg (by omega)]

lemma set3_inv {g : Grid} {r c : Nat} {t : Int} {x : Cell} {g' : Grid}
    (h : set3 g r c t x = some g') :
    ∃ row col n, g[r]? = some row ∧ row[c]? = some col ∧
      npIndex col.length t = some n ∧
      g' = g.set r (row.set c (col.set n x)) := by
  unfold set3 at h
  rw [Option.bind_eq_some] at h
  obtain ⟨row, hrow, h⟩ := h
  rw [Option.bind_eq_some] at h
  obtain ⟨col, hcol, h⟩ := h
  rw [Option.bind_eq_some] at h
  obtain ⟨n, hn, h⟩ := h
  cases h
  exact ⟨row, col, n, hrow, hcol, hn, rfl⟩

lemma set3_get3_same {g : Grid} {r c : Nat} {t : Int} {x : Cell} {g' : Grid}
    (h : set3 g r c t x = some g') (hi : 0 ≤ t) :
    get3 g' r c t.toNat = some x := by
  obtain ⟨row, col, n, hrow, hcol, hn, rfl⟩ := set3_inv h
  obtain ⟨rfl, hlt⟩ := npIndex_of_nonneg hi hn
  unfold get3
  rw [getElem?_set_same (lt_of_getElem?_some hrow), Option.some_bind,
    getElem?_set_same (lt_of_getElem?_some hcol), Option.some_bind,
    getElem?_set_same hlt]

lemma set3_get3_ne {g : Grid} {r c : Nat} {t : Int} {x : Cell} {g' : Grid}
    (h : set3 g r c t x = some g') {r' c' : Nat} (hne : (r', c') ≠ (r, c)) :
    ∀ tn, get3 g' r' c' tn = get3 g r' c' tn := by
  obtain ⟨row, col, n, hrow, hcol, hn, rfl⟩ := set3_inv h
  intro tn
  unfold get3
  by_cases hr : r = r'
  · subst hr
    have hc : c ≠ c' := by
      intro hc
      exact hne (by rw [hc])
    rw [getElem?_set_same (lt_of_getElem?_some hrow), Option.some_bind, hrow,
      Option.some_bind, getElem?_set_other _ _ _ _ hc]
  · rw [getElem?_set_other _ _ _ _ hr]

/-- `set3` never changes the shape of a grid. -/
lemma set3_shape {nRows nCols nT1 : Nat} {g : Grid} {r c : Nat} {t : Int}
    {x : Cell} {g' : Grid} (hs : gridShapeB nRows nCols nT1 g = true)
    (h : set3 g r c t x = some g') : gridShapeB nRows nCols nT1 g' = true := by
  obtain ⟨row, col, n, hrow, hcol, hn, rfl⟩ := set3_inv h
  unfold gridShapeB at hs ⊢
  simp only [Bool.and_eq_true, beq_iff_eq, List.all_eq_true] at hs ⊢
  obtain ⟨hlen, hrows⟩ := hs
  refine ⟨by simpa using hlen, ?_⟩
  intro row' hrow'
  rcases List.mem_or_eq_of_mem_set hrow' with hmem | rfl
  · exact hrows row' hmem
  · obtain ⟨hrlen, hcols⟩ := hrows row (mem_of_getElem?_some hrow)
    refine ⟨by simpa using hrlen, ?_⟩
    intro col' hcol'
    rcases List.mem_or_eq_of_mem_set hcol' with hmem | rfl
    · exact hcols col' hmem
    · simpa using hcols col (mem_of_getElem?_some hcol)

/-- `setVec` never changes the length of a time vector. -/
lemma setVec_length {v : TimeVec} {i : Int} {x : Cell} {v' : TimeVec}
    (h : setVec v i x = some v') : v'.length = v.length := by
  unfold setVec at h
  rw [Option.bind_eq_some] at h
  obtain ⟨n, _, h⟩ := h
  cases h
  simp

/-! ### Cell-loop lemmas -/

lemma writeCell_inv {element : List (List Char)} {nCols : Nat} {t : Int}
    {g : Grid} {r c : Nat} {g' : Grid}
    (h : writeCell element nCols t g r c = some g') :
    ∃ tok, element[nCols * r + 1 + 1 + c]? = some tok ∧
      ((tok = ovrflwChars ∧ set3 g r c t Cell.missing = some g') ∨
       (tok ≠ ovrflwChars ∧ ∃ q, parseFloat tok = some q ∧
         set3 g r c t (Cell.val q) = some g')) := by
  unfold writeCell at h
  rw [Option.bind_eq_some] at h
  obtain ⟨g1, hg1, h⟩ := h
  rw [Option.bind_eq_some] at h
  obtain ⟨tok, htok, h⟩ := h
  have hne : element.length ≠ 1 := by
    intro hlen
    rw [List.getElem?_eq_none (by omega)] at htok
    cases htok
  rw [if_neg hne] at hg1
  cases hg1
  by_cases hov : tok = ovrflwChars
  · rw [if_pos hov] at h
    exact ⟨tok, htok, Or.inl ⟨hov, h⟩⟩
  · rw [if_neg hov] at h
    rw [Option.bind_eq_some] at h
    obtain ⟨q, hq, h⟩ := h
    exact ⟨tok, htok, Or.inr ⟨hov, q, hq, h⟩⟩

lemma writeCell_get3_ne {element : List (List Char)} {nCols : Nat} {t : Int}
    {g : Grid} {r c : Nat} {g' : Grid}
    (h : writeCell element nCols t g r c = some g') {r' c' : Nat}
    (hne : (r', c') ≠ (r, c)) :
    ∀ tn, get3 g' r' c' tn = get3 g r' c' tn := by
  obtain ⟨tok, htok, hcase⟩ := writeCell_inv h
  rcases hcase with ⟨-, hset⟩ | ⟨-, q, -, hset⟩
  · exact set3_get3_ne hset hne
  · exact set3_get3_ne hset hne

lemma writeCell_shape {nRows nCols nT1 : Nat} {element : List (List Char)}
    {t : Int} {g : Grid} {r c : Nat} {g' : Grid}
    (hs : gridShapeB nRows nCols nT1 g = true)
    (h : writeCell element nCols t g r c = some g') :
    gridShapeB nRows nCols nT1 g' = true := by
  obtain ⟨tok, htok, hcase⟩ := writeCell_inv h
  rcases hcase with ⟨-, hset⟩ | ⟨-, q, -, hset⟩
  · exact set3_shape hs hset
  · exact set3_shape hs hset

lemma writeCols_ne_row {element : List (List Char)} {nCols : Nat} {t : Int}
    {r : Nat} {cs : List Nat} :
    ∀ {g g' : Grid}, writeCols element nCols t r g cs = some g' →
      ∀ r' c' tn, r' ≠ r → get3 g' r' c' tn = get3 g r' c' tn := by
  induction cs with
  | nil =>
    intro g g' h r' c' tn _
    cases h
    rfl
  | cons c0 cs ih =>
    intro g g' h r' c' tn hr
    simp only [writeCols] at h
    cases hw : writeCell element nCols t g r c0 with
    | none => rw [hw] at h; cases h
    | some g1 =>
      rw [hw] at h
      rw [ih h r' c' tn hr, writeCell_get3_ne hw (by simp [hr]) tn]

lemma writeCols_notMem {element : List (List Char)} {nCols : Nat} {t : Int}
    {r : Nat} {cs : List Nat} :
    ∀ {g g' : Grid}, writeCols element nCols t r g cs = some g' →
      ∀ c' tn, c' ∉ cs → get3 g' r c' tn = get3 g r c' tn := by
  induction cs with
  | nil =>
    intro g g' h c' tn _
    cases h
    rfl
  | cons c0 cs ih =>
    intro g g' h c' tn hc
    simp only [writeCols] at h
    cases hw : writeCell element nCols t g r c0 with
    | none => rw [hw] at h; cases h
    | some g1 =>
      rw [hw] at h
      have hc0 : c' ≠ c0 := fun hx => hc (hx ▸ List.mem_cons_self c0 cs)
      have hcs : c' ∉ cs := fun hx => hc (List.mem_cons_of_mem _ hx)
      rw [ih h c' tn hcs, writeCell_get3_ne hw (by simp [hc0]) tn]

lemma writeCols_shape {nRows nCols nT1 : Nat} {element : List (List Char)}
    {t : Int} {r : Nat} {cs : List Nat} :
    ∀ {g g' : Grid}, gridShapeB nRows nCols nT1 g = true →
      writeCols element nCols t r g cs = some g' →
      gridShapeB nRows nCols nT1 g' = true := by
  induction cs with
  | nil =>
    intro g g' hs h
    cases h
    exact hs
  | cons c0 cs ih =>
    intro g g' hs h
    simp only [writeCols] at h
    cases hw : writeCell element nCols t g r c0 with
    | none => rw [hw] at h; cases h
    | some g1 =>
      rw [hw] at h
      exact ih (writeCell_shape hs hw) h

lemma writeCols_val {element : List (List Char)} {nCols : Nat} {t : Int}
    {r : Nat} {cs : List Nat} :
    ∀ {g g' : Grid}, writeCols element nCols t r g cs = some g' →
      ∀ c, c ∈ cs → cs.Nodup → 0 ≤ t →
      ∃ tok, element[nCols * r + 1 + 1 + c]? = some tok ∧
        ((tok = ovrflwChars ∧ get3 g' r c t.toNat = some Cell.missing) ∨
         (tok ≠ ovrflwChars ∧ ∃ q, parseFloat tok = some q ∧
           get3 g' r c t.toNat = some (Cell.val q))) := by
  induction cs with
  | nil =>
    intro g g' h c hc
    cases hc
  | cons c0 cs ih =>
    intro g g' h c hc hnd ht
    simp only [writeCols] at h
    cases hw : writeCell element nCols t g r c0 with
    | none => rw [hw] at h; cases h
    | some g1 =>
      rw [hw] at h
      rcases List.mem_cons.mp hc with rfl | hmem
      · obtain ⟨tok, htok, hcase⟩ := writeCell_inv hw
        have hstay : get3 g' r c t.toNat = get3 g1 r c t.toNat :=
          writeCols_notMem h c t.toNat (List.Nodup.not_mem hnd)
        refine ⟨tok, htok, ?_⟩
        rcases hcase with ⟨hov, hset⟩ | ⟨hov, q, hq, hset⟩
        · exact Or.inl ⟨hov, by rw [hstay, set3_get3_same hset ht]⟩
        · exact Or.inr ⟨hov, q, hq, by rw [hstay, set3_get3_same hset ht]⟩
      · exact ih h c hmem (List.Nodup.of_cons hnd) ht

lemma writeRows_notMem {element : List (List Char)} {nCols : Nat} {t : Int}
    {rs : List Nat} :
    ∀ {g g' : Grid}, writeRows element nCols t g rs = some g' →
      ∀ r c' tn, r ∉ rs → get3 g' r c' tn = get3 g r c' tn := by
  induction rs with
  | nil =>
    intro g g' h r c' tn _
    cases h
    rfl
  | cons r0 rs ih =>
    intro g g' h r c' tn hr
    simp only [writeRows] at h
    cases hw : writeCols element nCols t r0 g (List.range nCols) with
    | none => rw [hw] at h; cases h
    | some g1 =>
      rw [hw] at h
      have hr0 : r ≠ r0 := fun hx => hr (hx ▸ List.mem_cons_self r0 rs)
      have hrs : r ∉ rs := fun hx => hr (List.mem_cons_of_mem _ hx)
      rw [ih h r c' tn hrs, writeCols_ne_row hw r c' tn hr0]

lemma writeRows_shape {nRows nCols nT1 : Nat} {element : List (List Char)}
    {t : Int} {rs : List Nat} :
    ∀ {g g' : Grid}, gridShapeB nRows nCols nT1 g = true →
      writeRows element nCols t g rs = some g' →
      gridShapeB nRows nCols nT1 g' = true := by
  induction rs with
  | nil =>
    intro g g' hs h
    cases h
    exact hs
  | cons r0 rs ih =>
    intro g g' hs h
    simp only [writeRows] at h
    cases hw : writeCols element nCols t r0 g (List.range nCols) with
    | none => rw [hw] at h; cases h
    | some g1 =>
      rw [hw] at h
      exact ih (writeCols_shape hs hw) h

lemma writeRows_val {element : List (List Char)} {nCols : Nat} {t : Int}
    {rs : List Nat} :
    ∀ {g g' : Grid}, writeRows element nCols t g rs = some g' →
      ∀ r c, r ∈ rs → rs.Nodup → c < nCols → 0 ≤ t →
      ∃ tok, element[nCols * r + 1 + 1 + c]? = some tok ∧
        ((tok = ovrflwChars ∧ get3 g' r c t.toNat = some Cell.missing) ∨
         (tok ≠ ovrflwChars ∧ ∃ q, parseFloat tok = some q ∧
           get3 g' r c t.toNat = some (Cell.val q))) := by
  induction rs with
  | nil =>
    intro g g' h r c hr
    cases hr
  | cons r0 rs ih =>
    intro g g' h r c hr hnd hc ht
    simp only [writeRows] at h
    cases hw : writeCols element nCols t r0 g (List.range nCols) with
    | none => rw [hw] at h; cases h
    | some g1 =>
      rw [hw] at h
      rcases List.mem_cons.mp hr with rfl | hmem
      · obtain ⟨tok, htok, hcase⟩ :=
          writeCols_val hw c (List.mem_range.mpr hc) (List.nodup_range nCols) ht
        have hstay : get3 g' r c t.toNat = get3 g1 r c t.toNat :=
          writeRows_notMem h r c t.toNat (List.Nodup.not_mem hnd)
        refine ⟨tok, htok, ?_⟩
        rcases hcase with ⟨hov, hget⟩ | ⟨hov, q, hq, hget⟩
        · exact Or.inl ⟨hov, by rw [hstay, hget]⟩
        · exact Or.inr ⟨hov, q, hq, by rw [hstay, hget]⟩
      · exact ih h r c hmem (List.Nodup.of_cons hnd) hc ht

/-- The value stored by the full nested cell loop at any in-range position. -/
lemma writeAll_val {element : List (List Char)} {nCols nRows : Nat} {t : Int}
    {g g' : Grid} (h : writeAll element nCols nRows t g = some g')
    {r c : Nat} (hr : r < nRows) (hc : c < nCols) (ht : 0 ≤ t) :
    ∃ tok, element[nCols * r + 1 + 1 + c]? = some tok ∧
      ((tok = ovrflwChars ∧ get3 g' r c t.toNat = some Cell.missing) ∨
       (tok ≠ ovrflwChars ∧ ∃ q, parseFloat tok = some q ∧
         get3 g' r c t.toNat = some (Cell.val q))) :=
  writeRows_val h r c (List.mem_range.mpr hr) (List.nodup_range nRows) hc ht

lemma writeAll_shape {nRows nCols nT1 nRows' : Nat} {element : List (List Char)}
    {t : Int} {g g' : Grid} (hs : gridShapeB nRows nCols nT1 g = true)
    (h : writeAll element nCols nRows' t g = some g') :
    gridShapeB nRows nCols nT1 g' = true :=
  writeRows_shape hs h

/-! ### Step-level lemmas -/

lemma stepLine_header {cfg : Config} {st : PRState} {line : List Char}
    (h : isHeader line = true) :
    stepLine cfg st line = some (headerState cfg st line) := by
  unfold stepLine
  rw [if_pos h]

lemma stepLine_skip {cfg : Config} {st : PRState} {line : List Char}
    (h : isHeader line = false)
    (hs : line = newlineOnly ∨ hasSubstr timeChars line = true) :
    stepLine cfg st line = some st := by
  unfold stepLine
  rw [if_neg (by simp [h]), if_neg ?_]
  rcases hs with rfl | hs
  · rintro ⟨h1, -⟩
    exact h1 rfl
  · rintro ⟨-, h2⟩
    rw [hs] at h2
    cases h2

lemma stepLine_data {cfg : Config} {st : PRState} {line : List Char}
    (h : isHeader line = false) (h1 : line ≠ newlineOnly)
    (h2 : hasSubstr timeChars line = false) :
    stepLine cfg st line = dataStep cfg st line := by
  unfold stepLine
  rw [if_neg (by simp [h]), if_pos ⟨h1, h2⟩]

lemma dataStep_inv {cfg : Config} {st : PRState} {line : List Char}
    {st' : PRState} (h : dataStep cfg st line = some st') :
    ∃ rd e0 hq tv tv' g g',
      st.current = some rd ∧
      (splitOnChar '\t' (pyStrip line))[0]? = some e0 ∧
      convertTime e0 = some hq ∧
      dictGet st.timeD rd = some tv ∧
      setVec tv (st.timeI + 1) (Cell.val hq) = some tv' ∧
      dictGet st.dataD rd = some g ∧
      writeAll (splitOnChar '\t' (pyStrip line)) cfg.nCols cfg.nRows
        (st.timeI + 1) g = some g' ∧
      st' = ⟨dictSet st.dataD rd g', dictSet st.timeD rd tv',
             some rd, st.timeI + 1⟩ := by
  unfold dataStep at h
  rw [Option.bind_eq_some] at h
  obtain ⟨rd, hrd, h⟩ := h
  rw [Option.bind_eq_some] at h
  obtain ⟨e0, he0, h⟩ := h
  rw [Option.bind_eq_some] at h
  obtain ⟨hq, hhq, h⟩ := h
  rw [Option.bind_eq_some] at h
  obtain ⟨tv, htv, h⟩ := h
  rw [Option.bind_eq_some] at h
  obtain ⟨tv', htv', h⟩ := h
  rw [Option.bind_eq_some] at h
  obtain ⟨g, hg, h⟩ := h
  rw [Option.bind_eq_some] at h
  obtain ⟨g', hg', h⟩ := h
  cases h
  exact ⟨rd, e0, hq, tv, tv', g, g', hrd, he0, hhq, htv, htv', hg, hg', rfl⟩

lemma dataStep_none_of_noChannel {cfg : Config} {st : PRState}
    {line : List Char} (h : st.current = none) :
    dataStep cfg st line = none := by
  unfold dataStep
  rw [h, Option.none_bind]

/-- The fresh grid allocated at a header has the configured shape. -/
lemma mkGrid_shape (nRows nCols nT1 : Nat) :
    gridShapeB nRows nCols nT1 (mkGrid nRows nCols nT1) = true := by
  unfold gridShapeB mkGrid
  simp only [Bool.and_eq_true, beq_iff_eq, List.all_eq_true]
  refine ⟨by simp, ?_⟩
  intro row hrow
  rw [List.eq_of_mem_replicate hrow]
  refine ⟨by simp, ?_⟩
  intro col hcol
  rw [List.eq_of_mem_replicate hcol]
  simp

/-- Every in-range entry of the fresh grid is `missing`. -/
lemma get3_mkGrid {nRows nCols nT1 : Nat} {r c tn : Nat}
    (hr : r < nRows) (hc : c < nCols) (htn : tn < nT1) :
    get3 (mkGrid nRows nCols nT1) r c tn = some Cell.missing := by
  unfold get3 mkGrid
  rw [getElem?_replicate_of_lt hr, Option.some_bind,
    getElem?_replicate_of_lt hc, Option.some_bind,
    getElem?_replicate_of_lt htn]

/-! ### Shape invariant -/

lemma shapeInv_init (cfg : Config) : ShapeInv cfg initState := by
  constructor
  · intro p hp
    cases hp
  · intro p hp
    cases hp

lemma stepLine_shape {cfg : Config} {st st' : PRState} {line : List Char}
    (hinv : ShapeInv cfg st) (h : stepLine cfg st line = some st') :
    ShapeInv cfg st' := by
  unfold stepLine at h
  by_cases hh : isHeader line = true
  · rw [if_pos hh] at h
    cases h
    constructor
    · intro p hp
      rcases mem_dictSet hp with hmem | rfl
      · exact hinv.1 p hmem
      · exact mkGrid_shape _ _ _
    · intro p hp
      rcases mem_dictSet hp with hmem | rfl
      · exact hinv.2 p hmem
      · simp
  · rw [if_neg hh] at h
    by_cases hd : line ≠ newlineOnly ∧ hasSubstr timeChars line = false
    · rw [if_pos hd] at h
      obtain ⟨rd, e0, hq, tv, tv', g, g', -, -, -, htv, htv', hg, hg', rfl⟩ :=
        dataStep_inv h
      constructor
      · intro p hp
        rcases mem_dictSet hp with hmem | rfl
        · exact hinv.1 p hmem
        · exact writeAll_shape (hinv.1 _ (dictGet_mem hg)) hg'
      · intro p hp
        rcases mem_dictSet hp with hmem | rfl
        · exact hinv.2 p hmem
        · rw [setVec_length htv']
          exact hinv.2 _ (dictGet_mem htv)
    · rw [if_neg hd] at h
      cases h
      exact hinv

lemma runLines_shape {cfg : Config} :
    ∀ {lines : List (List Char)} {st st' : PRState}, ShapeInv cfg st →
      runLines cfg st lines = some st' → ShapeInv cfg st' := by
  intro lines
  induction lines with
  | nil =>
    intro st st' hinv h
    cases h
    exact hinv
  | cons line rest ih =>
    intro st st' hinv h
    simp only [runLines] at h
    cases hw : stepLine cfg st line with
    | none => rw [hw] at h; cases h
    | some st1 =>
      rw [hw] at h
      exact ih (stepLine_shape hinv hw) h

/-! ### Skip and failure propagation -/

lemma runLines_skipPre {cfg : Config} {st : PRState} :
    ∀ {pre more : List (List Char)},
      (∀ l ∈ pre, isHeader l = false ∧
        (l = newlineOnly ∨ hasSubstr timeChars l = true)) →
      runLines cfg st (pre ++ more) = runLines cfg st more := by
  intro pre
  induction pre with
  | nil => intro more _; rfl
  | cons l pre ih =>
    intro more hpre
    obtain ⟨h1, h2⟩ := hpre l (List.mem_cons_self l pre)
    rw [List.cons_append]
    simp only [runLines]
    rw [stepLine_skip h1 h2]
    exact ih fun l' hl' => hpre l' (List.mem_cons_of_mem _ hl')

/-! ### Numeric interpretation lemmas -/

lemma Frac.add_toRat {a b : Frac} (ha : a.den ≠ 0) (hb : b.den ≠ 0) :
    (Frac.add a b).toRat = a.toRat + b.toRat := by
  unfold Frac.add Frac.toRat
  have ha' : (a.den : ℚ) ≠ 0 := Int.cast_ne_zero.mpr ha
  have hb' : (b.den : ℚ) ≠ 0 := Int.cast_ne_zero.mpr hb
  push_cast
  field_simp

lemma Frac.div60_toRat {a : Frac} (ha : a.den ≠ 0) :
    (Frac.div a frac60).toRat = a.toRat / 60 := by
  unfold Frac.div Frac.toRat frac60
  have ha' : (a.den : ℚ) ≠ 0 := Int.cast_ne_zero.mpr ha
  push_cast
  field_simp

lemma parseUnsigned_den_pos {s : List Char} {q : Frac}
    (h : parseUnsigned s = some q) : 0 < q.den := by
  unfold parseUnsigned at h
  cases hdw : s.dropWhile Char.isDigit with
  | nil =>
    rw [hdw] at h
    have h' : (if (s.takeWhile Char.isDigit).isEmpty then none
        else some (⟨(digitsVal (s.takeWhile Char.isDigit) 0 : Int), 1⟩ : Frac)) = some q := h
    by_cases hip : (s.takeWhile Char.isDigit).isEmpty = true
    · rw [if_pos hip] at h'
      cases h'
    · rw [if_neg hip] at h'
      cases h'
      exact Int.one_pos
  | cons c fp =>
    rw [hdw] at h
    have h' : (if c = '.' then
        (if fp.all Char.isDigit && !((s.takeWhile Char.isDigit).isEmpty && fp.isEmpty) then
          some (⟨(digitsVal (s.takeWhile Char.isDigit) 0 : Int) * (10 : Int) ^ fp.length +
                  (digitsVal fp 0 : Int), (10 : Int) ^ fp.length⟩ : Frac)
        else none)
      else none) = some q := h
    by_cases hdot : c = '.'
    · rw [if_pos hdot] at h'
      by_cases hok :
          (fp.all Char.isDigit && !((s.takeWhile Char.isDigit).isEmpty && fp.isEmpty)) = true
      · rw [if_pos hok] at h'
        cases h'
        exact pow_pos (by norm_num) _
      · rw [if_neg hok] at h'
        cases h'
    · rw [if_neg hdot] at h'
      cases h'

lemma parseFloat_den_pos {s : List Char} {q : Frac}
    (h : parseFloat s = some q) : 0 < q.den := by
  cases s with
  | nil => exact parseUnsigned_den_pos (show parseUnsigned [] = some q from h)
  | cons c rest =>
    simp only [parseFloat] at h
    by_cases hm : c = '-'
    · rw [if_pos hm, Option.map_eq_some'] at h
      obtain ⟨q', hq', rfl⟩ := h
      simpa using parseUnsigned_den_pos hq'
    · rw [if_neg hm] at h
      by_cases hp : c = '+'
      · rw [if_pos hp] at h
        exact parseUnsigned_den_pos h
      · rw [if_neg hp] at h
        exact parseUnsigned_den_pos h

/-- `int(total_run_time/sampling_rate)` is the floor of the exact quotient
when both arguments are positive. -/
lemma nTimePoints_eq_floor {tot samp : Frac} (h1 : 0 < tot.num) (h2 : 0 < tot.den)
    (h3 : 0 < samp.num) (h4 : 0 < samp.den) :
    nTimePoints tot samp = (⌊tot.toRat / samp.toRat⌋).toNat := by
  have hb : (0 : Int) < tot.den * samp.num := mul_pos h2 h3
  have hval : tot.toRat / samp.toRat =
      ((tot.num * samp.den : Int) : ℚ) / (((tot.den * samp.num).toNat : ℕ) : ℚ) := by
    have htd : (tot.den : ℚ) ≠ 0 := Int.cast_ne_zero.mpr h2.ne'
    have hsn : (samp.num : ℚ) ≠ 0 := Int.cast_ne_zero.mpr h3.ne'
    have hsd : (samp.den : ℚ) ≠ 0 := Int.cast_ne_zero.mpr h4.ne'
    have e1 : (((tot.den * samp.num).toNat : ℕ) : ℚ) = (tot.den : ℚ) * (samp.num : ℚ) := by
      rw [← Int.cast_natCast, Int.toNat_of_nonneg hb.le, Int.cast_mul]
    rw [Frac.toRat, Frac.toRat, e1]
    push_cast
    field_simp
  rw [hval, Rat.floor_intCast_div_natCast]
  simp only [nTimePoints, Frac.pyTrunc, Frac.div]
  congr 1
  rw [Int.tdiv_eq_ediv (mul_nonneg h1.le h4.le) hb.le]
  rw [Int.toNat_of_nonneg hb.le]

/-! ### Claim theorems -/

/-- Claim C2: a line is treated as a new-channel header if and only if its
leading substring equals one of the fixed literal prefixes "Read", "GFP",
"RFP", "600", "Ratio", or its total length (terminator included) is exactly
4 or exactly 8 characters. -/
theorem header_rule_matches_spec (line : List Char) :
    isHeader line = isHeaderSpec line := by
  rw [Bool.eq_iff_iff]
  simp only [isHeader, isHeaderSpec, Bool.or_eq_true, beq_iff_eq]
  have h1 := take_eq_iff_beginsWith readChars line
  have h2 := take_eq_iff_beginsWith gfpChars line
  have h3 := take_eq_iff_beginsWith rfpChars line
  have h4 := take_eq_iff_beginsWith odChars line
  have h5 := take_eq_iff_beginsWith ratioChars line
  rw [show readChars.length = 4 from rfl] at h1
  rw [show gfpChars.length = 3 from rfl] at h2
  rw [show rfpChars.length = 3 from rfl] at h3
  rw [show odChars.length = 3 from rfl] at h4
  rw [show ratioChars.length = 5 from rfl] at h5
  rw [h1, h2, h3, h4, h5]

/-- Claim C7: a line consisting solely of the terminator, or containing "Time"
while not classified as a header, is skipped with no state change at all:
the parser state after the line is exactly the state before it. -/
theorem skip_line_no_state_change (cfg : Config) (st : PRState) (line : List Char)
    (hh : isHeader line = false)
    (hs : line = newlineOnly ∨ hasSubstr timeChars line = true) :
    stepLine cfg st line = some st :=
  stepLine_skip hh hs

/-- Witness for C7 at a concrete "Time"-containing line and a concrete
non-trivial state. -/
theorem skip_line_no_state_change_witness :
    stepLine ⟨8, 12, 10⟩
      ⟨[(odChars, [[[Cell.val ⟨5, 1⟩]]])], [(odChars, [Cell.val ⟨0, 3600⟩])],
        some odChars, 0⟩
      (timeChars ++ [' ', '[', 's', ']', '\n']) =
      some ⟨[(odChars, [[[Cell.val ⟨5, 1⟩]]])], [(odChars, [Cell.val ⟨0, 3600⟩])],
        some odChars, 0⟩ :=
  skip_line_no_state_change _ _ _ (by decide) (Or.inr (by decide))

/-- Claim C5: every header line — including one whose channel name was already
seen — (re)allocates that channel's grid and time vector entirely to
"missing", points the parser at that channel, and resets the running time
index to `-1`; any data previously stored under that name is replaced. -/
theorem header_resets_channel (cfg : Config) (st : PRState) (line : List Char)
    (hh : isHeader line = true) :
    ∃ st', stepLine cfg st line = some st' ∧
      st'.current = some line.dropLast ∧
      st'.timeI = -1 ∧
      dictGet st'.dataD line.dropLast =
        some (mkGrid cfg.nRows cfg.nCols (cfg.nTimePoints + 1)) ∧
      dictGet st'.timeD line.dropLast =
        some (List.replicate (cfg.nTimePoints + 1) Cell.missing) ∧
      (∀ r c tn, r < cfg.nRows → c < cfg.nCols → tn < cfg.nTimePoints + 1 →
        get3 (mkGrid cfg.nRows cfg.nCols (cfg.nTimePoints + 1)) r c tn =
          some Cell.missing) ∧
      (∀ i, i < cfg.nTimePoints + 1 →
        (List.replicate (cfg.nTimePoints + 1) Cell.missing)[i]? = some Cell.missing) := by
  refine ⟨headerState cfg st line, stepLine_header hh, rfl, rfl,
    dictGet_dictSet_self _ _ _, dictGet_dictSet_self _ _ _, ?_, ?_⟩
  · intro r c tn hr hc htn
    exact get3_mkGrid hr hc htn
  · intro i hi
    exact getElem?_replicate_of_lt hi

/-- Witness for C5: re-encountering the header `"600\n"` while `"600"`
already holds data resets that channel. -/
theorem header_resets_channel_witness :
    ∃ st', stepLine ⟨1, 1, 0⟩
        ⟨[(odChars, [[[Cell.val ⟨7, 1⟩]]])], [(odChars, [Cell.val ⟨7, 1⟩])],
          some odChars, 0⟩
        (odChars ++ ['\n']) = some st' ∧
      st'.current = some (odChars ++ ['\n']).dropLast ∧
      st'.timeI = -1 ∧
      dictGet st'.dataD (odChars ++ ['\n']).dropLast = some (mkGrid 1 1 1) ∧
      dictGet st'.timeD (odChars ++ ['\n']).dropLast =
        some (List.replicate 1 Cell.missing) ∧
      (∀ r c tn, r < 1 → c < 1 → tn < 1 →
        get3 (mkGrid 1 1 1) r c tn = some Cell.missing) ∧
      (∀ i, i < 1 → (List.replicate 1 Cell.missing)[i]? = some Cell.missing) :=
  header_resets_channel ⟨1, 1, 0⟩ _ _ (by decide)

/-- Claim C10: header classification takes precedence over the skip rule: a
line containing "Time" (or equal to the bare terminator) that nevertheless
satisfies the header test is handled as a new-channel header keyed by the
line minus its last character, not skipped. -/
theorem header_precedes_skip (cfg : Config) (st : PRState) (line : List Char)
    (hskip : hasSubstr timeChars line = true ∨ line = newlineOnly)
    (hh : isHeader line = true) :
    stepLine cfg st line = some (headerState cfg st line) ∧
    (headerState cfg st line).current = some line.dropLast ∧
    dictGet (headerState cfg st line).dataD line.dropLast =
      some (mkGrid cfg.nRows cfg.nCols (cfg.nTimePoints + 1)) :=
  ⟨stepLine_header hh, rfl, dictGet_dictSet_self _ _ _⟩

/-- Witness for C10: `"Time 12\n"` has length 8 and contains "Time"; it is
treated as a header, not skipped. -/
theorem header_precedes_skip_witness :
    stepLine ⟨2, 3, 4⟩ initState
      (timeChars ++ [' ', '1', '2', '\n']) =
      some (headerState ⟨2, 3, 4⟩ initState (timeChars ++ [' ', '1', '2', '\n'])) ∧
    (headerState ⟨2, 3, 4⟩ initState (timeChars ++ [' ', '1', '2', '\n'])).current =
      some (timeChars ++ [' ', '1', '2', '\n']).dropLast ∧
    dictGet (headerState ⟨2, 3, 4⟩ initState
        (timeChars ++ [' ', '1', '2', '\n'])).dataD
        (timeChars ++ [' ', '1', '2', '\n']).dropLast =
      some (mkGrid 2 3 5) :=
  header_precedes_skip ⟨2, 3, 4⟩ initState _ (Or.inl (by decide)) (by decide)

/-- Claim C1: on a data row parsed while a channel is open, the value stored at
grid position (row, column, current time index) comes from the token at flat
offset `columns*row + 2 + column` of the tab-split stripped line: "OVRFLW"
stores "missing", any other token stores its parsed floating-point value. -/
theorem data_cell_from_offset (cfg : Config) (st st' : PRState)
    (line rd : List Char)
    (hh : isHeader line = false) (h1 : line ≠ newlineOnly)
    (h2 : hasSubstr timeChars line = false)
    (hcur : st.current = some rd)
    (hti : -1 ≤ st.timeI)
    (hstep : stepLine cfg st line = some st')
    (r c : Nat) (hr : r < cfg.nRows) (hc : c < cfg.nCols)
    (tok : List Char)
    (htok : (splitOnChar '\t' (pyStrip line))[cfg.nCols * r + 2 + c]? = some tok) :
    ∃ g', dictGet st'.dataD rd = some g' ∧
      (tok = ovrflwChars →
        get3 g' r c (st.timeI + 1).toNat = some Cell.missing) ∧
      (tok ≠ ovrflwChars →
        ∃ q, parseFloat tok = some q ∧
          get3 g' r c (st.timeI + 1).toNat = some (Cell.val q)) := by
  rw [stepLine_data hh h1 h2] at hstep
  obtain ⟨rd', e0, hq, tv, tv', g, g', hrd', he0, hhq, htv, htv', hg, hg', rfl⟩ :=
    dataStep_inv hstep
  rw [hcur] at hrd'
  cases hrd'
  refine ⟨g', dictGet_dictSet_self _ _ _, ?_⟩
  have ht0 : 0 ≤ st.timeI + 1 := by omega
  obtain ⟨tok', htok', hcase⟩ := writeAll_val hg' hr hc ht0
  rw [show cfg.nCols * r + 1 + 1 + c = cfg.nCols * r + 2 + c from by omega] at htok'
  rw [htok] at htok'
  cases htok'
  constructor
  · intro hov
    rcases hcase with ⟨-, hget⟩ | ⟨hnov, -⟩
    · exact hget
    · exact absurd hov hnov
  · intro hnov
    rcases hcase with ⟨hov, -⟩ | ⟨-, q, hq', hget⟩
    · exact absurd hov hnov
    · exact ⟨q, hq', hget⟩

/-- Witness for C1: for the row `"0:0:0\tA1\t1.5\tOVRFLW\n"` on a 1 × 2 grid
the cell (0, 1) takes the token at offset `2*0+2+1 = 3`, which is "OVRFLW",
so "missing" is stored there. -/
theorem data_cell_from_offset_witness :
    ∃ g', dictGet [(odChars, [[[Cell.val ⟨15, 10⟩], [Cell.missing]]])] odChars =
        some g' ∧
      (ovrflwChars = ovrflwChars → get3 g' 0 1 0 = some Cell.missing) ∧
      (ovrflwChars ≠ ovrflwChars →
        ∃ q, parseFloat ovrflwChars = some q ∧ get3 g' 0 1 0 = some (Cell.val q)) :=
  data_cell_from_offset ⟨1, 2, 0⟩
    ⟨[(odChars, mkGrid 1 2 1)], [(odChars, List.replicate 1 Cell.missing)],
      some odChars, -1⟩
    ⟨[(odChars, [[[Cell.val ⟨15, 10⟩], [Cell.missing]]])],
      [(odChars, [Cell.val ⟨0, 3600⟩])], some odChars, 0⟩
    (['0', ':', '0', ':', '0', '\t', 'A', '1', '\t', '1', '.', '5', '\t'] ++
      ovrflwChars ++ ['\n'])
    odChars (by decide) (by decide) (by decide) (by decide) (by decide) (by decide)
    0 1 (by decide) (by decide) ovrflwChars (by decide)

/-- Claim C3: for every successful parse with positive row/column counts and
positive timing parameters, every returned channel grid has shape
`(R, C, T+1)` and every returned time vector has length `T+1`, where
`T = ⌊total_run_time / sampling_rate⌋`. -/
theorem organize_shapes (nRows nCols : Nat) (tot samp : Frac)
    (hR : 0 < nRows) (hC : 0 < nCols)
    (h1 : 0 < tot.num) (h2 : 0 < tot.den) (h3 : 0 < samp.num) (h4 : 0 < samp.den)
    (lines : List (List Char)) (d : Dict Grid) (td : Dict TimeVec)
    (h : Organize nRows nCols tot samp lines = some (d, td)) :
    (∀ p ∈ d, gridShapeB nRows nCols
        ((⌊Frac.toRat tot / Frac.toRat samp⌋).toNat + 1) p.2 = true) ∧
    (∀ p ∈ td, p.2.length = (⌊Frac.toRat tot / Frac.toRat samp⌋).toNat + 1) := by
  unfold Organize at h
  cases hrun : runLines ⟨nRows, nCols, nTimePoints tot samp⟩ initState lines with
  | none => rw [hrun] at h; cases h
  | some st =>
    rw [hrun] at h
    simp only [Option.some.injEq, Prod.mk.injEq] at h
    obtain ⟨rfl, rfl⟩ := h
    have hinv := runLines_shape (shapeInv_init _) hrun
    rw [← nTimePoints_eq_floor h1 h2 h3 h4]
    exact hinv

/-- Witness for C3 on a concrete two-line input with `R = C = 1` and
`total_run_time = sampling_rate = 1`, so `T = 1` and all time dimensions
are 2. -/
theorem organize_shapes_witness :
    (∀ p ∈ ([(odChars, [[[Cell.val ⟨5, 1⟩, Cell.missing]]])] : Dict Grid),
        gridShapeB 1 1
          ((⌊Frac.toRat ⟨1, 1⟩ / Frac.toRat ⟨1, 1⟩⌋).toNat + 1) p.2 = true) ∧
    (∀ p ∈ ([(odChars, [Cell.val ⟨0, 3600⟩, Cell.missing])] : Dict TimeVec),
        p.2.length = (⌊Frac.toRat ⟨1, 1⟩ / Frac.toRat ⟨1, 1⟩⌋).toNat + 1) :=
  organize_shapes 1 1 ⟨1, 1⟩ ⟨1, 1⟩ (by decide) (by decide) (by decide) (by decide)
    (by decide) (by decide)
    [odChars ++ ['\n'], ['0', ':', '0', ':', '0', '\t', 'A', '1', '\t', '5', '\n']]
    [(odChars, [[[Cell.val ⟨5, 1⟩, Cell.missing]]])]
    [(odChars, [Cell.val ⟨0, 3600⟩, Cell.missing])]
    (by decide)

/-- Claim C4: a timestamp token of the form `H:M:S` converts to exactly
`H + (M + S/60)/60` hours (both at the level of the computed fraction and of
its rational value). -/
theorem timestamp_conversion (tok a b c : List Char) (H M S : Frac)
    (hsplit : splitOnChar ':' tok = [a, b, c])
    (ha : parseFloat a = some H) (hb : parseFloat b = some M)
    (hc : parseFloat c = some S) :
    convertTime tok =
      some (Frac.add H (Frac.div (Frac.add M (Frac.div S frac60)) frac60)) ∧
    (Frac.add H (Frac.div (Frac.add M (Frac.div S frac60)) frac60)).toRat =
      H.toRat + (M.toRat + S.toRat / 60) / 60 := by
  constructor
  · have e2 : ([a, b, c] : List (List Char))[2]? = some c := rfl
    have e1 : ([a, b, c] : List (List Char))[1]? = some b := rfl
    have e0 : ([a, b, c] : List (List Char))[0]? = some a := rfl
    simp only [convertTime, hsplit, e0, e1, e2, Option.some_bind, ha, hb, hc]
  · have hH := parseFloat_den_pos ha
    have hM := parseFloat_den_pos hb
    have hS := parseFloat_den_pos hc
    have hZ : (Frac.div S frac60).den ≠ 0 :=
      show S.den * 60 ≠ 0 from mul_ne_zero hS.ne' (by norm_num)
    have hY : (Frac.add M (Frac.div S frac60)).den ≠ 0 :=
      show M.den * (Frac.div S frac60).den ≠ 0 from mul_ne_zero hM.ne' hZ
    rw [Frac.add_toRat hH.ne' (show (Frac.div (Frac.add M (Frac.div S frac60)) frac60).den ≠ 0
        from mul_ne_zero hY (by decide)),
      Frac.div60_toRat hY, Frac.add_toRat hM.ne' hZ, Frac.div60_toRat hS.ne']

/-- Witness for C4: `"01:30:15"` converts to `1 + (30 + 15/60)/60` hours. -/
theorem timestamp_conversion_witness :
    convertTime ['0', '1', ':', '3', '0', ':', '1', '5'] =
      some (Frac.add ⟨1, 1⟩ (Frac.div (Frac.add ⟨30, 1⟩ (Frac.div ⟨15, 1⟩ frac60))
        frac60)) ∧
    (Frac.add ⟨1, 1⟩ (Frac.div (Frac.add ⟨30, 1⟩ (Frac.div ⟨15, 1⟩ frac60))
        frac60)).toRat =
      Frac.toRat ⟨1, 1⟩ + (Frac.toRat ⟨30, 1⟩ + Frac.toRat ⟨15, 1⟩ / 60) / 60 :=
  timestamp_conversion ['0', '1', ':', '3', '0', ':', '1', '5']
    ['0', '1'] ['3', '0'] ['1', '5'] ⟨1, 1⟩ ⟨30, 1⟩ ⟨15, 1⟩
    (by decide) (by decide) (by decide) (by decide)

/-- Claim C8: an input whose first non-skipped line is a data line (a data row
before any header) makes the whole parse fail instead of returning a
result. -/
theorem orphan_data_fails (nRows nCols : Nat) (tot samp : Frac)
    (pre : List (List Char)) (line : List Char) (rest : List (List Char))
    (hpre : ∀ l ∈ pre, isHeader l = false ∧
      (l = newlineOnly ∨ hasSubstr timeChars l = true))
    (hh : isHeader line = false) (h1 : line ≠ newlineOnly)
    (h2 : hasSubstr timeChars line = false) :
    Organize nRows nCols tot samp (pre ++ line :: rest) = none := by
  have hnone : runLines (⟨nRows, nCols, nTimePoints tot samp⟩ : Config)
      initState (line :: rest) = none := by
    simp only [runLines]
    rw [stepLine_data hh h1 h2, dataStep_none_of_noChannel rfl]
  unfold Organize
  rw [runLines_skipPre hpre, hnone]

/-- Witness for C8: a blank line and a "Time" label line are skipped, then a
data row arrives with no open channel and the parse fails. -/
theorem orphan_data_fails_witness :
    Organize 1 1 ⟨1, 1⟩ ⟨1, 1⟩
      ([['\n'], timeChars ++ ['0', '\n']] ++
        ['0', ':', '0', ':', '0', '\t', 'A', '\t', '5', '\n'] :: []) = none :=
  orphan_data_fails 1 1 ⟨1, 1⟩ ⟨1, 1⟩
    [['\n'], timeChars ++ ['0', '\n']]
    ['0', ':', '0', ':', '0', '\t', 'A', '\t', '5', '\n'] []
    (by decide) (by decide) (by decide) (by decide)

/-- Claim C9: when a data row arrives after the running time index has reached
the allocated timepoint capacity of the open channel's time vector, the step
fails (an index error) instead of dropping or wrapping the row. -/
theorem capacity_exceeded_fails (cfg : Config) (st : PRState)
    (line rd : List Char) (tv : TimeVec)
    (hh : isHeader line = false) (h1 : line ≠ newlineOnly)
    (h2 : hasSubstr timeChars line = false)
    (hcur : st.current = some rd)
    (htv : dictGet st.timeD rd = some tv)
    (hcap : (tv.length : Int) ≤ st.timeI + 1)
    (hti : -1 ≤ st.timeI) :
    stepLine cfg st line = none := by
  rw [stepLine_data hh h1 h2]
  unfold dataStep
  rw [hcur, Option.some_bind]
  cases he0 : (splitOnChar '\t' (pyStrip line))[0]? with
  | none => rw [Option.none_bind]
  | some e0 =>
    rw [Option.some_bind]
    cases hq : convertTime e0 with
    | none => rw [Option.none_bind]
    | some hv =>
      rw [Option.some_bind, htv, Option.some_bind]
      have hsv : setVec tv (st.timeI + 1) (Cell.val hv) = none := by
        unfold setVec
        rw [npIndex_none_of_ge (by omega) hcap, Option.none_bind]
      rw [hsv, Option.none_bind]

/-- Witness for C9: a channel with capacity 1 whose time index is already 0
fails on the next data row. -/
theorem capacity_exceeded_fails_witness :
    stepLine ⟨1, 1, 0⟩
      ⟨[(odChars, [[[Cell.val ⟨5, 1⟩]]])], [(odChars, [Cell.val ⟨0, 3600⟩])],
        some odChars, 0⟩
      ['0', ':', '0', ':', '5', '\t', 'A', '\t', '6', '\n'] = none :=
  capacity_exceeded_fails ⟨1, 1, 0⟩ _ _ odChars [Cell.val ⟨0, 3600⟩]
    (by decide) (by decide) (by decide) (by decide) (by decide) (by decide) (by decide)

/-- Claim C6 (the code contradicts the claim): on a one-token data row the
loop body writes "missing" but then still evaluates
`element[n_columns*row+1+1+column]`, an out-of-range index for every cell,
so the parse raises instead of storing "missing" everywhere: the model
returns `none` on the input `"600\n"`, `"0:0:0\n"` with a 1 × 1 grid. -/
theorem one_token_row_fails :
    Organize 1 1 ⟨1, 1⟩ ⟨1, 1⟩
      [odChars ++ ['\n'], ['0', ':', '0', ':', '0', '\n']] = none := by
  decide
